import Mathlib

/-!
Verification of the deduplication and ordering core of `clean_clippings.py`
(Kindle-Clippings-Cleaner).  Text is modelled as `List Char`; Python integers
as `Int`; Python's `None` as `Option`.  Similarity ratios are modelled as
exact rationals: `ratio >= 0.92` becomes `92 * (len a + len b) ≤ 200 * M`
where `M` is the total matched size computed by difflib's `SequenceMatcher`
algorithm (faithfully re-implemented below for junk-free inputs; difflib's
`autojunk` heuristic activates only for strings of length ≥ 200 and all
concrete texts in this development are far shorter).
-/

set_option maxRecDepth 20000

namespace KCC

/-- Python whitespace characters recognised by `str.strip()` (ASCII range;
all texts in this development are ASCII). -/
def pyWS (c : Char) : Bool :=
  c = ' ' || c = '\t' || c = '\n' || c = '\r' || c = '\x0b' || c = '\x0c'

/-- Python `s.strip()`: drop whitespace from both ends. -/
def pyStrip (s : List Char) : List Char :=
  ((s.dropWhile pyWS).reverse.dropWhile pyWS).reverse

/-- Python substring test `a in b` on strings (empty `a` is in every `b`). -/
def isSubstr : List Char → List Char → Bool
  | nee, [] => nee.isEmpty
  | nee, c :: rest => nee.isPrefixOf (c :: rest) || isSubstr nee rest

/-- Lookup in difflib's `j2len` dictionary (absent key means 0). -/
def lookupJ : List (Nat × Nat) → Nat → Nat
  | [], _ => 0
  | (a, v) :: rest, k => if a = k then v else lookupJ rest k

/-- Ascending indices `j` with `blo ≤ j < bhi` and `b[j] = c`
(difflib's `b2j[c]` restricted to the window, in iteration order). -/
def jIndices (b : List Char) (c : Char) (blo bhi : Nat) : List Nat :=
  (List.range b.length).filter (fun j => decide (blo ≤ j) && decide (j < bhi) && (b.getD j c == c))

/-- One row (`i`) of the dynamic scan of difflib's `find_longest_match`:
state is `(j2len of previous row, besti, bestj, bestsize)`. -/
def flmRow (a b : List Char) (blo bhi : Nat) (i : Nat)
    (st : List (Nat × Nat) × Nat × Nat × Nat) : List (Nat × Nat) × Nat × Nat × Nat :=
  let js := jIndices b (a.getD i ' ') blo bhi
  js.foldl
    (fun acc j =>
      let k := if j = 0 then 1 else lookupJ st.1 (j - 1) + 1
      if k > acc.2.2.2 then ((j, k) :: acc.1, i + 1 - k, j + 1 - k, k)
      else ((j, k) :: acc.1, acc.2.1, acc.2.2.1, acc.2.2.2))
    ([], st.2.1, st.2.2.1, st.2.2.2)

/-- difflib `SequenceMatcher.find_longest_match` on the window
`a[alo:ahi] × b[blo:bhi]`, for junk-free sequences (the two post-scan
extension loops of the source are provably no-ops when there is no junk).
Returns `(besti, bestj, bestsize)`. -/
def findLongestMatch (a b : List Char) (alo ahi blo bhi : Nat) : Nat × Nat × Nat :=
  let st := (List.range' alo (ahi - alo)).foldl (fun st i => flmRow a b blo bhi i st) ([], alo, blo, 0)
  (st.2.1, st.2.2.1, st.2.2.2)

/-- Total size of the matching blocks of difflib's `get_matching_blocks`
(the recursion of the source's queue, fuelled; fuel `length a + 1` always
suffices since every recursive window is strictly shorter). -/
def matchTotalFuel (a b : List Char) : Nat → Nat → Nat → Nat → Nat → Nat
  | 0, _, _, _, _ => 0
  | fuel + 1, alo, ahi, blo, bhi =>
    let r := findLongestMatch a b alo ahi blo bhi
    if r.2.2 = 0 then 0
    else r.2.2 + matchTotalFuel a b fuel alo r.1 blo r.2.1
               + matchTotalFuel a b fuel (r.1 + r.2.2) ahi (r.2.1 + r.2.2) bhi

/-- Total matched size `M` in difflib's `ratio = 2 * M / (len a + len b)`. -/
def matchSize (a b : List Char) : Nat :=
  matchTotalFuel a b (a.length + 1) 0 a.length 0 b.length

/-- Comparison `SequenceMatcher(None, a, b).ratio() >= pct / 100`, as an exact rational
comparison (difflib returns 1.0 when both sequences are empty). -/
def seqRatioGe (a b : List Char) (pct : Nat) : Bool :=
  let tot := a.length + b.length
  if tot = 0 then decide (pct ≤ 100)
  else decide (pct * tot ≤ 200 * matchSize a b)

/-- Function `very_close` of the source (`ratio` threshold given in percent):
empty strings never match; strings shorter than 8 compare only by equality;
otherwise the sequence-matcher ratio must reach the threshold. -/
def very_close (a b : List Char) (ratioPct : Nat) : Bool :=
  if a.isEmpty || b.isEmpty then false
  else if min a.length b.length < 8 then a == b
  else seqRatioGe a b ratioPct

/-- Function `is_subset` of the source: both nonempty, both at least `min_len` long,
and one a literal substring of the other. -/
def is_subset (a b : List Char) (min_len : Nat) : Bool :=
  if a.isEmpty || b.isEmpty then false
  else if min a.length b.length < min_len then false
  else isSubstr a b || isSubstr b a

/-- Function `clause_based_match` of the source: some clause of `a` and some clause of
`b`, each at least `min_len` long, are substrings of one another or have
sequence-matcher ratio at least the threshold (percent). -/
def clause_based_match (aCl bCl : List (List Char)) (min_len : Nat) (ratioPct : Nat) : Bool :=
  aCl.any (fun ca =>
    decide (min_len ≤ ca.length) &&
    bCl.any (fun cb =>
      decide (min_len ≤ cb.length) &&
      (isSubstr ca cb || isSubstr cb ca || seqRatioGe ca cb ratioPct)))

/-- One parsed annotation (the dict built by `parse_entry`); the fields the
deduplication core reads.  `loc` is `none` exactly when `parse_loc` failed
(the source then stores `(None, None)`); the unread `timestamp_raw` and
`hash` fields are omitted. -/
structure Entry where
  idx : Int
  title : String
  meta : String
  type : String
  loc : Option (Int × Int)
  timestamp : Option Int
  body : List Char
  norm : List Char
  clauses : List (List Char)
  deriving DecidableEq, Repr

/-- Function `ranges_overlap` of the source: false when either location is missing,
otherwise `not ((a2 + tol) < b1 or (b2 + tol) < a1)`. -/
def ranges_overlap (a b : Option (Int × Int)) (tol : Int) : Bool :=
  match a, b with
  | some (a1, a2), some (b1, b2) => !(decide (a2 + tol < b1) || decide (b2 + tol < a1))
  | _, _ => false

/-- The `time_close` computation of `is_duplicate`: both timestamps present
and within `time_tol` seconds of each other. -/
def timeCloseB (ta tb : Option Int) (time_tol : Int) : Bool :=
  match ta, tb with
  | some x, some y => decide (((x - y).natAbs : Int) ≤ time_tol)
  | _, _ => false

/-- The decision taken by `is_duplicate` once the two corroborating signals
(`overlap`, `time_close`) have been computed (source lines after the
exact-equality check): clause matching with ratio 0.88/0.92, then the
subset and near-equality tests with thresholds depending on the signals. -/
def dupDecision (a b : List Char) (aCl bCl : List (List Char))
    (overlap time_close : Bool) (clause_min_len : Nat) : Bool :=
  let clause_match := clause_based_match aCl bCl clause_min_len (if time_close then 88 else 92)
  if overlap then
    if clause_match then true
    else if is_subset a b 12 then true
    else if very_close a b (if time_close then 90 else 92) then true
    else false
  else
    if clause_match then true
    else if is_subset a b (if time_close then 10 else 16) then true
    else if very_close a b (if !time_close then 95 else 92) then true
    else false

/-- Function `is_duplicate` of the source (the `debug` flag only prints and is
omitted): empty normalized bodies never match, equal ones always do, and
otherwise the graduated threshold policy of `dupDecision` applies. -/
def is_duplicate (cur kept : Entry) (time_tol : Int) (clause_min_len : Nat) : Bool :=
  let a := cur.norm
  let b := kept.norm
  if a.isEmpty || b.isEmpty then false
  else if a == b then true
  else
    dupDecision a b cur.clauses kept.clauses
      (ranges_overlap cur.loc kept.loc 8)
      (timeCloseB cur.timestamp kept.timestamp time_tol)
      clause_min_len

/-- The variable-length sort key of `dedup_by_book`'s `sort_key`, as a list of
integers compared like a Python tuple: `[start, idx]` for located entries,
`[10^12, -(timestamp or 0), idx]` for unlocated ones. -/
def sort_key (x : Entry) : List Int :=
  match x.loc with
  | none => [1000000000000, -(x.timestamp.getD 0), x.idx]
  | some (s, _) => [s, x.idx]

/-- Python's `<` on tuples of integers (lexicographic; a strict prefix is
smaller). -/
def listLt : List Int → List Int → Bool
  | _, [] => false
  | [], _ :: _ => true
  | a :: as, b :: bs => if a < b then true else if b < a then false else listLt as bs

/-- Stable insertion step of `list.sort(key=sort_key)`: the new element goes
before the first kept element that is not strictly smaller. -/
def insertK (x : Entry) : List Entry → List Entry
  | [] => [x]
  | y :: ys => if listLt (sort_key y) (sort_key x) then y :: insertK x ys else x :: y :: ys

/-- Python `list.sort(key=sort_key)` (stable, ascending). -/
def sortK (l : List Entry) : List Entry := l.foldr insertK []

/-- One step of `dedup_by_book`'s retention loop: skip empty bodies, then
dispatch the candidate to its kind's kept list (`highlight` and the
fall-through `else` branch — in particular `unknown` — share `kept_h`). -/
def stepKeep (time_tol : Int) (clause_min_len : Nat)
    (acc : List Entry × List Entry × List Entry) (cur : Entry) :
    List Entry × List Entry × List Entry :=
  if cur.body.isEmpty || (pyStrip cur.body).isEmpty then acc
  else if cur.type = "highlight" then
    if (acc.1.any (fun k => is_duplicate cur k time_tol clause_min_len)) then acc
    else (acc.1 ++ [cur], acc.2.1, acc.2.2)
  else if cur.type = "note" then
    if acc.2.1.any (fun k => cur.norm == k.norm) then acc
    else (acc.1, acc.2.1 ++ [cur], acc.2.2)
  else if cur.type = "bookmark" then
    if acc.2.2.any (fun k => cur.meta == k.meta) then acc
    else (acc.1, acc.2.1, acc.2.2 ++ [cur])
  else
    if (acc.1.any (fun k => is_duplicate cur k time_tol clause_min_len)) then acc
    else (acc.1 ++ [cur], acc.2.1, acc.2.2)

/-- The per-book body of `dedup_by_book`: fold the entries newest-export-first
into the three kept lists, then output sorted highlights, then notes, then
bookmarks. -/
def processBook (time_tol : Int) (clause_min_len : Nat) (es : List Entry) : List Entry :=
  let r := es.reverse.foldl (stepKeep time_tol clause_min_len) ([], [], [])
  sortK r.1 ++ sortK r.2.1 ++ sortK r.2.2

/-- Append an entry to its title's group (`defaultdict(list)` with dict
insertion order). -/
def insertGroup : List (String × List Entry) → Entry → List (String × List Entry)
  | [], e => [(e.title, [e])]
  | (t, g) :: rest, e =>
    if t = e.title then (t, g ++ [e]) :: rest else (t, g) :: insertGroup rest e

/-- The `by_book` grouping of `dedup_by_book`. -/
def groupByTitle (es : List Entry) : List (String × List Entry) :=
  es.foldl insertGroup []

/-- Function `dedup_by_book` of the source: group by title, deduplicate and order each
book.  The result dict is modelled as an association list in insertion
order. -/
def dedup_by_book (es : List Entry) (time_tol : Int) (clause_min_len : Nat) :
    List (String × List Entry) :=
  (groupByTitle es).map (fun p => (p.1, processBook time_tol clause_min_len p.2))

/-- Dict lookup on the modelled result. -/
def lookupBook : List (String × List Entry) → String → Option (List Entry)
  | [], _ => none
  | (t, g) :: rest, b => if t = b then some g else lookupBook rest b

/-- A book's kept sequence in the output (empty when the book is absent). -/
def getBook (m : List (String × List Entry)) (b : String) : List Entry :=
  (lookupBook m b).getD []

/-- Leftmost occurrence of `sep` in `s`: `some (before, after)` splits `s` as
`before ++ sep ++ after` at the first occurrence. -/
def findSep (sep : List Char) : List Char → Option (List Char × List Char)
  | [] => none
  | c :: rest =>
    if sep.isPrefixOf (c :: rest) then some ([], (c :: rest).drop sep.length)
    else (findSep sep rest).map (fun pq => (c :: pq.1, pq.2))

/-- Python `s.split(sep)` for nonempty `sep`, fuelled (fuel `length s + 1`
always suffices: every removed separator consumes at least one character). -/
def splitFuel (sep : List Char) : Nat → List Char → List (List Char)
  | 0, s => [s]
  | fuel + 1, s =>
    match findSep sep s with
    | none => [s]
    | some (p, q) => p :: splitFuel sep fuel q

/-- Python `s.split(sep)` (for the nonempty separators used here). -/
def pySplit (sep : List Char) (s : List Char) : List (List Char) :=
  splitFuel sep (s.length + 1) s

/-- The record separator the source splits on: ten equals signs. -/
def eqMarker : List Char := "==========".toList

/-- Function `split_entries` of the source: split the raw content on the ten-equals
marker, strip each part, keep the nonempty ones. -/
def split_entries (content : List Char) : List (List Char) :=
  ((pySplit eqMarker content).map pyStrip).filter (fun p => !p.isEmpty)

/-- Join segments with a separator (`sep.join(segs)` up to the enclosing
list structure); used to state the amended form of the splitting claim. -/
def joinSep (sep : List Char) : List (List Char) → List Char
  | [] => []
  | [s] => s
  | s :: rest => s ++ sep ++ joinSep sep rest

/-- The splitting function the claim describes, following the spec's words:
the marker is ten ASCII hyphens. -/
def splitEntriesSpecHyphen (content : List Char) : List (List Char) :=
  ((pySplit "----------".toList content).map pyStrip).filter (fun p => !p.isEmpty)

/-- The location-overlap test the claim describes, following the spec's
words: both ranges present and intersecting after each is expanded by the
tolerance 8 on both of its ends. -/
def rangesOverlapSpecBothEnds (a b : Option (Int × Int)) : Bool :=
  match a, b with
  | some (a1, a2), some (b1, b2) =>
    decide (max (a1 - 8) (b1 - 8) ≤ min (a2 + 8) (b2 + 8))
  | _, _ => false

/-- The overlap-branch right-hand side the claim describes: clause overlap,
or subset with floor 12, or near-equality at threshold 0.90 regardless of
timestamp proximity. -/
def dupOverlapSpecC2 (cur kept : Entry) (time_tol : Int) (clause_min_len : Nat) : Bool :=
  clause_based_match cur.clauses kept.clauses clause_min_len
      (if timeCloseB cur.timestamp kept.timestamp time_tol then 88 else 92)
    || is_subset cur.norm kept.norm 12
    || very_close cur.norm kept.norm 90

/-- Per-entry bound used in the amended ordering claim: any location start is
below the source's unlocated-sentinel `10^12`. -/
def locSmall (e : Entry) : Bool :=
  match e.loc with
  | none => true
  | some (s, _) => decide (s < 1000000000000)

/-- The pairwise ordering relation the ordering claim asserts inside each
kind's kept list: located entries in non-decreasing `(location start,
sequence index)` order, located before unlocated, unlocated entries
newest-timestamp-first (missing timestamps counting as 0) with the sequence
index as final tie-break. -/
def claimRel (x y : Entry) : Prop :=
  match x.loc, y.loc with
  | some (sx, _), some (sy, _) => sx ≤ sy ∧ (sx = sy → x.idx ≤ y.idx)
  | some _, none => True
  | none, some _ => False
  | none, none =>
    y.timestamp.getD 0 ≤ x.timestamp.getD 0 ∧
      (x.timestamp.getD 0 = y.timestamp.getD 0 → x.idx ≤ y.idx)

/-- The `kept_h` retention step in isolation: skip empty bodies, keep the
candidate iff it is not a duplicate of an already-kept entry. -/
def stepHU (time_tol : Int) (clause_min_len : Nat) (kh : List Entry) (cur : Entry) : List Entry :=
  if cur.body.isEmpty || (pyStrip cur.body).isEmpty then kh
  else if kh.any (fun k => is_duplicate cur k time_tol clause_min_len) then kh
  else kh ++ [cur]

/-- The `kept_n` retention step in isolation (exact normalized-body match). -/
def stepN (kn : List Entry) (cur : Entry) : List Entry :=
  if cur.body.isEmpty || (pyStrip cur.body).isEmpty then kn
  else if kn.any (fun k => cur.norm == k.norm) then kn
  else kn ++ [cur]

/-- The `kept_b` retention step in isolation (exact metadata match). -/
def stepB (kb : List Entry) (cur : Entry) : List Entry :=
  if cur.body.isEmpty || (pyStrip cur.body).isEmpty then kb
  else if kb.any (fun k => cur.meta == k.meta) then kb
  else kb ++ [cur]

/-- The independent highlights-and-unknowns fold: what `kept_h` accumulates
when only entries outside the `note` and `bookmark` branches are processed. -/
def keepHU (time_tol : Int) (clause_min_len : Nat) (l : List Entry) : List Entry :=
  l.foldl (stepHU time_tol clause_min_len) []

/-- The independent notes fold (exact normalized-body matching). -/
def keepN (l : List Entry) : List Entry :=
  l.foldl stepN []

/-- The independent bookmarks fold (exact metadata matching). -/
def keepB (l : List Entry) : List Entry :=
  l.foldl stepB []

/-- Class of an entry's bucket: notes and bookmarks have their own bucket,
everything else (highlights and in particular unknowns) shares `kept_h`. -/
def isHU (e : Entry) : Bool := !(decide (e.type = "note")) && !(decide (e.type = "bookmark"))

/-! Concrete texts and entries used in counterexamples and witnesses. -/

/-- 10-character text, a strict prefix of `txtB20`. -/
def txtA10 : List Char := "abcdefghij".toList

/-- 20-character extension of `txtA10`. -/
def txtB20 : List Char := "abcdefghijklmnopqrst".toList

/-- 20-character text agreeing with `txtB20` on its first 18 characters
(sequence-matcher ratio with `txtB20` is exactly 36/40 = 0.90). -/
def txtB20v : List Char := "abcdefghijklmnopqruv".toList

/-- Text whose sequence-matcher comparison with `txtAsymB` is
order-dependent: ratio 38/43 in one direction, 34/43 in the other. -/
def txtAsymA : List Char := "mmmmmmmmmmmmmmmPPxQQ".toList

/-- Companion of `txtAsymA` (23 characters). -/
def txtAsymB : List Char := "mmmmmmmmmmmmmmmQQyPPzQQ".toList

/-- Candidate far from its partner's location (C1): duplicate via the
relaxed subset floor 10 under timestamp proximity without overlap. -/
def entC1FarCur : Entry := ⟨0, "B", "m0", "highlight", some (1000, 1000), some 0, txtA10, txtA10, [txtA10]⟩

/-- Kept partner of `entC1FarCur` (C1). -/
def entC1FarKept : Entry := ⟨1, "B", "m1", "highlight", some (1, 1), some 100, txtB20, txtB20, [txtB20]⟩

/-- Same texts as `entC1FarCur` but with an overlapping location (C1). -/
def entC1NearCur : Entry := ⟨0, "B", "m0", "highlight", some (1, 1), some 0, txtA10, txtA10, [txtA10]⟩

/-- Same texts as `entC1FarKept` but with an overlapping location (C1). -/
def entC1NearKept : Entry := ⟨1, "B", "m1", "highlight", some (2, 2), some 100, txtB20, txtB20, [txtB20]⟩

/-- Overlapping-location candidate with ratio exactly 0.90 against its
partner and no timestamps (C2). -/
def entC2Cur : Entry := ⟨0, "B", "m0", "highlight", some (100, 110), none, txtB20, txtB20, [txtB20]⟩

/-- Kept partner of `entC2Cur` (C2). -/
def entC2Kept : Entry := ⟨1, "B", "m1", "highlight", some (105, 115), none, txtB20v, txtB20v, [txtB20v]⟩

/-- Asymmetric-ratio entry, export position 1, location 10 (C7, C8). -/
def entAsymLate : Entry := ⟨1, "B", "m1", "highlight", some (10, 10), some 1100, txtAsymA, txtAsymA, [txtAsymA]⟩

/-- Asymmetric-ratio entry, export position 0, location 5000 (C7, C8). -/
def entAsymEarly : Entry := ⟨0, "B", "m0", "highlight", some (5000, 5000), some 1000, txtAsymB, txtAsymB, [txtAsymB]⟩

/-- A highlight later suppressed by the `unknown` entry sharing its text (C5). -/
def entC5High : Entry := ⟨0, "B", "m0", "highlight", some (1, 2), none, "duplicatetext".toList, "duplicatetext".toList, ["duplicatetext".toList]⟩

/-- An `unknown` entry with the same text as `entC5High` (C5). -/
def entC5Unk : Entry := ⟨1, "B", "m1", "unknown", some (1, 2), none, "duplicatetext".toList, "duplicatetext".toList, ["duplicatetext".toList]⟩

/-- Highlight with nonempty body `"!!!"` whose normalized body is empty (C6). -/
def entC6Bang0 : Entry := ⟨0, "B", "m0", "highlight", some (1, 1), some 100, "!!!".toList, [], []⟩

/-- Second such highlight, different location and timestamp (C6). -/
def entC6Bang1 : Entry := ⟨1, "B", "m1", "highlight", some (200, 200), some 99999, "!!!".toList, [], []⟩

/-- Located entry whose location start equals the sentinel `10^12` (C9). -/
def entC9Loc : Entry := ⟨0, "B", "m0", "highlight", some (1000000000000, 1000000000000), none, "ab".toList, "ab".toList, ["ab".toList]⟩

/-- Unlocated, timestamped entry (C9). -/
def entC9NoLoc : Entry := ⟨1, "B", "m1", "highlight", none, some 100, "xy".toList, "xy".toList, ["xy".toList]⟩

/-- Whitespace-only-body entry (C10 witness). -/
def entC10Blank : Entry := ⟨0, "B", "m0", "bookmark", some (3, 3), some 5, "  ".toList, [], []⟩

/-- First of two highlights sharing a nonempty normalized body (witnesses). -/
def entWitEq0 : Entry := ⟨0, "B", "m0", "highlight", some (7, 9), some 10, "goodmorningworld".toList, "goodmorningworld".toList, ["goodmorningworld".toList]⟩

/-- Second of the two, different location and timestamp (witnesses). -/
def entWitEq1 : Entry := ⟨1, "B", "m1", "highlight", none, some 90000, "goodmorningworld".toList, "goodmorningworld".toList, ["goodmorningworld".toList]⟩

/-- 16-character text, a strict prefix of `txtB17` (C1 witness). -/
def txtA16 : List Char := "abcdefghijklmnop".toList

/-- 17-character extension of `txtA16` (C1 witness). -/
def txtB17 : List Char := "abcdefghijklmnopq".toList

/-- Raw content containing both a ten-hyphen line and a ten-equals line (C4). -/
def contentC4 : List Char := "a\n----------\nb\n==========\nc".toList

/-! Ordering facts about the Python tuple comparison `listLt`. -/

theorem listLt_nil_right (a : List Int) : listLt a [] = false := by
  cases a <;> rfl

theorem listLt_neg_trans : ∀ (a b c : List Int),
    listLt b a = false → listLt c b = false → listLt c a = false
  | [], _, c, _, _ => listLt_nil_right c
  | _ :: _, [], _, h1, _ => by simp [listLt] at h1
  | _ :: _, _ :: _, [], _, h2 => by simp [listLt] at h2
  | a0 :: as, b0 :: bs, c0 :: cs, h1, h2 => by
    simp only [listLt] at h1 h2 ⊢
    by_cases hba : b0 < a0
    · simp [hba] at h1
    · by_cases hcb : c0 < b0
      · simp [hcb] at h2
      · rw [if_neg (by omega : ¬ c0 < a0)]
        by_cases hca : a0 < c0
        · rw [if_pos hca]
        · rw [if_neg hba, if_neg (by omega : ¬ a0 < b0)] at h1
          rw [if_neg hcb, if_neg (by omega : ¬ b0 < c0)] at h2
          rw [if_neg hca]
          exact listLt_neg_trans as bs cs h1 h2

theorem listLt_asymm : ∀ (a b : List Int), listLt a b = true → listLt b a = false
  | a, [], h => by rw [listLt_nil_right] at h; exact absurd h (by simp)
  | [], _ :: _, _ => rfl
  | a0 :: as, b0 :: bs, h => by
    simp only [listLt] at h ⊢
    by_cases hab : a0 < b0
    · rw [if_neg (by omega : ¬ b0 < a0), if_pos hab]
    · by_cases hba : b0 < a0
      · simp [hab, hba] at h
      · rw [if_neg hab, if_neg hba] at h
        rw [if_neg hba, if_neg hab]
        exact listLt_asymm as bs h

/-! The stable insertion sort `sortK` models `list.sort(key=sort_key)`. -/

theorem insertK_perm (x : Entry) (l : List Entry) : (insertK x l).Perm (x :: l) := by
  induction l with
  | nil => exact List.Perm.refl _
  | cons y ys ih =>
    rw [insertK]
    by_cases hc : listLt (sort_key y) (sort_key x) = true
    · rw [if_pos hc]
      exact (ih.cons y).trans (List.Perm.swap x y ys)
    · rw [if_neg hc]

theorem sortK_perm (l : List Entry) : (sortK l).Perm l := by
  induction l with
  | nil => exact List.Perm.refl _
  | cons x xs ih => exact (insertK_perm x (sortK xs)).trans (ih.cons x)

theorem mem_sortK {x : Entry} {l : List Entry} : x ∈ sortK l ↔ x ∈ l :=
  (sortK_perm l).mem_iff

theorem mem_insertK {z x : Entry} {l : List Entry} :
    z ∈ insertK x l ↔ z = x ∨ z ∈ l := by
  rw [(insertK_perm x l).mem_iff, List.mem_cons]

theorem pairwise_insertK (x : Entry) (l : List Entry)
    (h : l.Pairwise (fun u v => listLt (sort_key v) (sort_key u) = false)) :
    (insertK x l).Pairwise (fun u v => listLt (sort_key v) (sort_key u) = false) := by
  induction l with
  | nil => simp [insertK]
  | cons y ys ih =>
    rw [List.pairwise_cons] at h
    obtain ⟨hy, hys⟩ := h
    rw [insertK]
    by_cases hc : listLt (sort_key y) (sort_key x) = true
    · rw [if_pos hc, List.pairwise_cons]
      refine ⟨fun z hz => ?_, ih hys⟩
      rcases mem_insertK.mp hz with rfl | hz'
      · exact listLt_asymm _ _ hc
      · exact hy z hz'
    · rw [if_neg hc, List.pairwise_cons]
      have hcF : listLt (sort_key y) (sort_key x) = false := by
        cases hval : listLt (sort_key y) (sort_key x)
        · rfl
        · exact absurd hval hc
      refine ⟨fun z hz => ?_, List.Pairwise.cons hy hys⟩
      rcases List.mem_cons.mp hz with rfl | hz'
      · exact hcF
      · exact listLt_neg_trans (sort_key x) (sort_key y) (sort_key z) hcF (hy z hz')

theorem pairwise_sortK (l : List Entry) :
    (sortK l).Pairwise (fun u v => listLt (sort_key v) (sort_key u) = false) := by
  induction l with
  | nil => exact List.Pairwise.nil
  | cons x xs ih => exact pairwise_insertK x (sortK xs) ih

/-! Invariants of the retention fold. -/

theorem stepKeep_mem (tt : Int) (cml : Nat) (acc : List Entry × List Entry × List Entry)
    (c x : Entry)
    (h : x ∈ (stepKeep tt cml acc c).1 ∨ x ∈ (stepKeep tt cml acc c).2.1 ∨
         x ∈ (stepKeep tt cml acc c).2.2) :
    (x ∈ acc.1 ∨ x ∈ acc.2.1 ∨ x ∈ acc.2.2) ∨ x = c := by
  unfold stepKeep at h
  split_ifs at h <;> (try simp only [List.mem_append, List.mem_singleton] at h) <;> tauto

theorem fold_mem (tt : Int) (cml : Nat) :
    ∀ (l : List Entry) (acc : List Entry × List Entry × List Entry) (x : Entry),
      (x ∈ (l.foldl (stepKeep tt cml) acc).1 ∨ x ∈ (l.foldl (stepKeep tt cml) acc).2.1 ∨
       x ∈ (l.foldl (stepKeep tt cml) acc).2.2) →
      (x ∈ acc.1 ∨ x ∈ acc.2.1 ∨ x ∈ acc.2.2) ∨ x ∈ l := by
  intro l
  induction l with
  | nil => intro acc x h; exact Or.inl h
  | cons c l' ih =>
    intro acc x h
    rw [List.foldl_cons] at h
    rcases ih _ x h with h' | h'
    · rcases stepKeep_mem tt cml acc c x h' with h'' | rfl
      · exact Or.inl h''
      · exact Or.inr (List.mem_cons_self _ _)
    · exact Or.inr (List.mem_cons_of_mem _ h')

theorem stepKeep_types (tt : Int) (cml : Nat) (acc : List Entry × List Entry × List Entry)
    (c : Entry)
    (h1 : ∀ e ∈ acc.1, isHU e = true) (h2 : ∀ e ∈ acc.2.1, e.type = "note")
    (h3 : ∀ e ∈ acc.2.2, e.type = "bookmark") :
    (∀ e ∈ (stepKeep tt cml acc c).1, isHU e = true) ∧
    (∀ e ∈ (stepKeep tt cml acc c).2.1, e.type = "note") ∧
    (∀ e ∈ (stepKeep tt cml acc c).2.2, e.type = "bookmark") := by
  unfold stepKeep
  split_ifs with hb hh hany hn hanyN hbk hanyB hanyE <;>
    refine ⟨fun e he => ?_, fun e he => ?_, fun e he => ?_⟩ <;>
    (try simp only [List.mem_append, List.mem_singleton] at he) <;>
    first
      | (exact h1 e he)
      | (exact h2 e he)
      | (exact h3 e he)
      | (rcases he with he | rfl
         · first | (exact h1 e he) | (exact h2 e he) | (exact h3 e he)
         · first
            | (unfold isHU; rw [hh]; decide)
            | (exact hn)
            | (exact hbk)
            | (unfold isHU
               rw [decide_eq_false hn, decide_eq_false hbk]
               decide))

theorem fold_types (tt : Int) (cml : Nat) :
    ∀ (l : List Entry) (acc : List Entry × List Entry × List Entry),
      (∀ e ∈ acc.1, isHU e = true) → (∀ e ∈ acc.2.1, e.type = "note") →
      (∀ e ∈ acc.2.2, e.type = "bookmark") →
      (∀ e ∈ (l.foldl (stepKeep tt cml) acc).1, isHU e = true) ∧
      (∀ e ∈ (l.foldl (stepKeep tt cml) acc).2.1, e.type = "note") ∧
      (∀ e ∈ (l.foldl (stepKeep tt cml) acc).2.2, e.type = "bookmark") := by
  intro l
  induction l with
  | nil => intro acc h1 h2 h3; exact ⟨h1, h2, h3⟩
  | cons c l' ih =>
    intro acc h1 h2 h3
    rw [List.foldl_cons]
    obtain ⟨g1, g2, g3⟩ := stepKeep_types tt cml acc c h1 h2 h3
    exact ih _ g1 g2 g3

theorem is_duplicate_of_eq_norm (cur kept : Entry) (tt : Int) (cml : Nat)
    (h : cur.norm = kept.norm) (hne : ¬ cur.norm = []) :
    is_duplicate cur kept tt cml = true := by
  have ha : cur.norm.isEmpty = false := List.isEmpty_eq_false.mpr hne
  have hb : kept.norm.isEmpty = false := by rw [← h]; exact ha
  simp [is_duplicate, ha, hb, h]

theorem stepKeep_count_h (tt : Int) (cml : Nat) (acc : List Entry × List Entry × List Entry)
    (c : Entry) (v : List Char) (hv : ¬ v = [])
    (h : acc.1.countP (fun e => decide (e.norm = v)) ≤ 1) :
    (stepKeep tt cml acc c).1.countP (fun e => decide (e.norm = v)) ≤ 1 := by
  unfold stepKeep
  split_ifs with hb hh hany hn hanyN hbk hanyB hanyE <;> try exact h
  all_goals {
    rw [List.countP_append]
    by_cases hcv : c.norm = v
    · have hzero : acc.1.countP (fun e => decide (e.norm = v)) = 0 := by
        rw [List.countP_eq_zero]
        intro k hk hkv
        have hkv' : k.norm = v := of_decide_eq_true hkv
        have hdup : is_duplicate c k tt cml = true :=
          is_duplicate_of_eq_norm c k tt cml (hcv.trans hkv'.symm) (by rw [hcv]; exact hv)
        have : acc.1.any (fun k => is_duplicate c k tt cml) = true :=
          List.any_eq_true.mpr ⟨k, hk, hdup⟩
        first | (exact absurd this hany) | (exact absurd this hanyE)
      rw [hzero]
      simp [List.countP_cons, hcv]
    · have : ([c].countP (fun e => decide (e.norm = v))) = 0 := by
        simp [List.countP_cons, hcv]
      rw [this]
      simpa using h
  }

theorem fold_count_h (tt : Int) (cml : Nat) :
    ∀ (l : List Entry) (acc : List Entry × List Entry × List Entry) (v : List Char),
      ¬ v = [] → acc.1.countP (fun e => decide (e.norm = v)) ≤ 1 →
      (l.foldl (stepKeep tt cml) acc).1.countP (fun e => decide (e.norm = v)) ≤ 1 := by
  intro l
  induction l with
  | nil => intro acc v _ h; exact h
  | cons c l' ih =>
    intro acc v hv h
    rw [List.foldl_cons]
    exact ih _ v hv (stepKeep_count_h tt cml acc c v hv h)

theorem stepKeep_count_n (tt : Int) (cml : Nat) (acc : List Entry × List Entry × List Entry)
    (c : Entry) (v : List Char)
    (h : acc.2.1.countP (fun e => decide (e.norm = v)) ≤ 1) :
    (stepKeep tt cml acc c).2.1.countP (fun e => decide (e.norm = v)) ≤ 1 := by
  unfold stepKeep
  split_ifs with hb hh hany hn hanyN hbk hanyB hanyE <;> try exact h
  rw [List.countP_append]
  by_cases hcv : c.norm = v
  · have hzero : acc.2.1.countP (fun e => decide (e.norm = v)) = 0 := by
      rw [List.countP_eq_zero]
      intro k hk hkv
      have hkv' : k.norm = v := of_decide_eq_true hkv
      have : acc.2.1.any (fun k => c.norm == k.norm) = true :=
        List.any_eq_true.mpr ⟨k, hk, beq_iff_eq.mpr (hcv.trans hkv'.symm)⟩
      exact absurd this hanyN
    rw [hzero]
    simp [List.countP_cons, hcv]
  · have : ([c].countP (fun e => decide (e.norm = v))) = 0 := by
      simp [List.countP_cons, hcv]
    rw [this]
    simpa using h

theorem fold_count_n (tt : Int) (cml : Nat) :
    ∀ (l : List Entry) (acc : List Entry × List Entry × List Entry) (v : List Char),
      acc.2.1.countP (fun e => decide (e.norm = v)) ≤ 1 →
      (l.foldl (stepKeep tt cml) acc).2.1.countP (fun e => decide (e.norm = v)) ≤ 1 := by
  intro l
  induction l with
  | nil => intro acc v h; exact h
  | cons c l' ih =>
    intro acc v h
    rw [List.foldl_cons]
    exact ih _ v (stepKeep_count_n tt cml acc c v h)

theorem fold_blank (tt : Int) (cml : Nat) :
    ∀ (l : List Entry) (acc : List Entry × List Entry × List Entry),
      (∀ e ∈ l, (e.body.isEmpty || (pyStrip e.body).isEmpty) = true) →
      l.foldl (stepKeep tt cml) acc = acc := by
  intro l
  induction l with
  | nil => intro acc _; rfl
  | cons c l' ih =>
    intro acc h
    rw [List.foldl_cons]
    have hb : (c.body.isEmpty || (pyStrip c.body).isEmpty) = true := h c (List.mem_cons_self _ _)
    have hstep : stepKeep tt cml acc c = acc := by unfold stepKeep; rw [if_pos hb]
    rw [hstep]
    exact ih acc (fun e he => h e (List.mem_cons_of_mem _ he))

/-! The retention fold factors through the three kind buckets. -/

theorem fold_factor (tt : Int) (cml : Nat) :
    ∀ (l : List Entry) (kh kn kb : List Entry),
      l.foldl (stepKeep tt cml) (kh, kn, kb) =
        ((l.filter isHU).foldl (stepHU tt cml) kh,
         (l.filter (fun e => decide (e.type = "note"))).foldl stepN kn,
         (l.filter (fun e => decide (e.type = "bookmark"))).foldl stepB kb) := by
  intro l
  induction l with
  | nil => intro kh kn kb; rfl
  | cons c l' ih =>
    intro kh kn kb
    by_cases hn : c.type = "note"
    · have hnothh : ¬ c.type = "highlight" := by rw [hn]; decide
      have hnotbk : ¬ c.type = "bookmark" := by rw [hn]; decide
      have f1 : isHU c = false := by unfold isHU; rw [decide_eq_true hn]; rfl
      have hstep : stepKeep tt cml (kh, kn, kb) c = (kh, stepN kn c, kb) := by
        unfold stepKeep stepN
        by_cases hb : (c.body.isEmpty || (pyStrip c.body).isEmpty) = true
        · rw [if_pos hb, if_pos hb]
        · rw [if_neg hb, if_neg hb, if_neg hnothh, if_pos hn]
          by_cases ha : (kn.any fun k => c.norm == k.norm) = true <;> simp [ha]
      rw [List.foldl_cons, hstep, ih kh (stepN kn c) kb]
      simp [List.filter_cons, f1, decide_eq_true hn, decide_eq_false hnotbk]
    · by_cases hbk : c.type = "bookmark"
      · have hnothh : ¬ c.type = "highlight" := by rw [hbk]; decide
        have f1 : isHU c = false := by
          unfold isHU; rw [decide_eq_true hbk]; simp
        have hstep : stepKeep tt cml (kh, kn, kb) c = (kh, kn, stepB kb c) := by
          unfold stepKeep stepB
          by_cases hb : (c.body.isEmpty || (pyStrip c.body).isEmpty) = true
          · rw [if_pos hb, if_pos hb]
          · rw [if_neg hb, if_neg hb, if_neg hnothh, if_neg hn, if_pos hbk]
            by_cases ha : (kb.any fun k => c.meta == k.meta) = true <;> simp [ha]
        rw [List.foldl_cons, hstep, ih kh kn (stepB kb c)]
        simp [List.filter_cons, f1, decide_eq_false hn, decide_eq_true hbk]
      · have f1 : isHU c = true := by
          unfold isHU; rw [decide_eq_false hn, decide_eq_false hbk]; rfl
        have hstep : stepKeep tt cml (kh, kn, kb) c = (stepHU tt cml kh c, kn, kb) := by
          unfold stepKeep stepHU
          by_cases hb : (c.body.isEmpty || (pyStrip c.body).isEmpty) = true
          · rw [if_pos hb, if_pos hb]
          · by_cases hh : c.type = "highlight"
            · rw [if_neg hb, if_neg hb, if_pos hh]
              by_cases ha : (kh.any fun k => is_duplicate c k tt cml) = true <;> simp [ha]
            · rw [if_neg hb, if_neg hb, if_neg hh, if_neg hn, if_neg hbk]
              by_cases ha : (kh.any fun k => is_duplicate c k tt cml) = true <;> simp [ha]
        rw [List.foldl_cons, hstep, ih (stepHU tt cml kh c) kn kb]
        simp [List.filter_cons, f1, decide_eq_false hn, decide_eq_false hbk]

/-! Grouping by title. -/

theorem lookup_insertGroup (m : List (String × List Entry)) (e : Entry) (b : String) :
    lookupBook (insertGroup m e) b =
      if b = e.title then some ((lookupBook m b).getD [] ++ [e]) else lookupBook m b := by
  induction m with
  | nil =>
    by_cases h : b = e.title
    · rw [if_pos h]
      simp [insertGroup, lookupBook, h.symm]
    · rw [if_neg h]
      have h2 : ¬ e.title = b := fun h' => h h'.symm
      simp [insertGroup, lookupBook, h2]
  | cons p rest ih =>
    obtain ⟨t, g⟩ := p
    by_cases ht : t = e.title
    · unfold insertGroup
      rw [if_pos ht]
      by_cases hbe : b = t
      · rw [if_pos (hbe.trans ht)]
        simp [lookupBook, hbe.symm]
      · have h2 : ¬ t = b := fun h' => hbe h'.symm
        have h3 : ¬ b = e.title := fun h' => hbe (h'.trans ht.symm)
        rw [if_neg h3]
        simp [lookupBook, h2]
    · unfold insertGroup
      rw [if_neg ht]
      by_cases htb : t = b
      · have h2 : ¬ b = e.title := fun h' => ht (htb.trans h')
        rw [if_neg h2]
        simp [lookupBook, htb]
      · simp only [lookupBook, if_neg htb]
        rw [ih]

theorem lookup_groupFold :
    ∀ (es : List Entry) (m : List (String × List Entry)) (b : String),
      lookupBook (es.foldl insertGroup m) b =
        match lookupBook m b with
        | some g => some (g ++ es.filter (fun e => decide (e.title = b)))
        | none =>
          if (es.filter (fun e => decide (e.title = b))).isEmpty then none
          else some (es.filter (fun e => decide (e.title = b))) := by
  intro es
  induction es with
  | nil =>
    intro m b
    cases h : lookupBook m b <;> simp [h]
  | cons e es' ih =>
    intro m b
    rw [List.foldl_cons, ih (insertGroup m e) b, lookup_insertGroup]
    by_cases hbe : b = e.title
    · rw [if_pos hbe]
      have hd : decide (e.title = b) = true := decide_eq_true hbe.symm
      cases hm : lookupBook m b with
      | some g =>
        simp [hm, List.filter_cons, hd, List.append_assoc]
      | none =>
        simp [hm, List.filter_cons, hd]
    · rw [if_neg hbe]
      have hd : decide (e.title = b) = false := decide_eq_false (fun h' => hbe h'.symm)
      cases hm : lookupBook m b with
      | some g => simp [hm, List.filter_cons, hd]
      | none => simp [hm, List.filter_cons, hd]

theorem lookupBook_map (f : List Entry → List Entry) :
    ∀ (m : List (String × List Entry)) (b : String),
      lookupBook (m.map (fun p => (p.1, f p.2))) b = (lookupBook m b).map f := by
  intro m
  induction m with
  | nil => intro b; rfl
  | cons p rest ih =>
    intro b
    obtain ⟨t, g⟩ := p
    by_cases h : t = b
    · simp [lookupBook, h]
    · simp [lookupBook, h, ih]

theorem processBook_nil (tt : Int) (cml : Nat) : processBook tt cml [] = [] := rfl

/-! The Python string split used by `split_entries`. -/

theorem isPrefixOf_append_self (l t : List Char) : l.isPrefixOf (l ++ t) = true := by
  induction l with
  | nil => cases t <;> rfl
  | cons a as ih => simp [List.isPrefixOf, ih]

theorem findSep_none (hc : Char) (tl : List Char) :
    ∀ (s : List Char), (∀ c ∈ s, ¬ c = hc) → findSep (hc :: tl) s = none := by
  intro s
  induction s with
  | nil => intro _; rfl
  | cons c rest ih =>
    intro h
    have hch : ¬ c = hc := h c (List.mem_cons_self _ _)
    have hpre : (hc :: tl).isPrefixOf (c :: rest) = false := by
      simp [List.isPrefixOf]
      intro he
      exact absurd he.symm hch
    unfold findSep
    rw [if_neg (by simp [hpre]), ih (fun c' hc' => h c' (List.mem_cons_of_mem _ hc'))]
    rfl

theorem findSep_append (hc : Char) (tl : List Char) :
    ∀ (s t : List Char), (∀ c ∈ s, ¬ c = hc) →
      findSep (hc :: tl) (s ++ (hc :: tl) ++ t) = some (s, t) := by
  intro s
  induction s with
  | nil =>
    intro t _
    show findSep (hc :: tl) ((hc :: tl) ++ t) = some ([], t)
    have h1 : (hc :: tl) ++ t = hc :: (tl ++ t) := List.cons_append hc tl t
    rw [h1]
    simp only [findSep]
    have h2 : (hc :: tl).isPrefixOf (hc :: (tl ++ t)) = true := by
      rw [← h1]
      exact isPrefixOf_append_self (hc :: tl) t
    rw [if_pos h2]
    have h3 : (hc :: (tl ++ t)).drop (hc :: tl).length = t := by
      rw [← h1]
      exact List.drop_left (hc :: tl) t
    rw [h3]
  | cons c s' ih =>
    intro t h
    have hch : ¬ c = hc := h c (List.mem_cons_self _ _)
    have hbeq : (hc == c) = false := by
      rw [beq_eq_false_iff_ne]
      exact fun he => hch he.symm
    have hpre : (hc :: tl).isPrefixOf (c :: (s' ++ (hc :: tl) ++ t)) = false := by
      show ((hc == c) && tl.isPrefixOf (s' ++ (hc :: tl) ++ t)) = false
      rw [hbeq]
      rfl
    have hpre' : ¬ ((hc :: tl).isPrefixOf (c :: (s' ++ (hc :: tl) ++ t)) = true) := by
      rw [hpre]
      decide
    show findSep (hc :: tl) (c :: (s' ++ (hc :: tl) ++ t)) = some (c :: s', t)
    simp only [findSep]
    rw [if_neg hpre', ih t (fun c' hc' => h c' (List.mem_cons_of_mem _ hc'))]
    rfl

theorem findSep_sound (sep : List Char) :
    ∀ (s p q : List Char), findSep sep s = some (p, q) → s = p ++ sep ++ q := by
  intro s
  induction s with
  | nil => intro p q h; exact absurd h (by simp [findSep])
  | cons c rest ih =>
    intro p q h
    unfold findSep at h
    by_cases hpre : sep.isPrefixOf (c :: rest) = true
    · rw [if_pos hpre] at h
      obtain ⟨u, hu⟩ := List.isPrefixOf_iff_prefix.mp hpre
      rw [Option.some.injEq, Prod.mk.injEq] at h
      obtain ⟨hp, hq⟩ := h
      rw [← hp, ← hq, ← hu, List.drop_left]
      rfl
    · rw [if_neg hpre] at h
      cases hf : findSep sep rest with
      | none => rw [hf] at h; exact absurd h (by simp)
      | some pq =>
        obtain ⟨p', q'⟩ := pq
        rw [hf] at h
        simp only [Option.map_some', Option.some.injEq, Prod.mk.injEq] at h
        obtain ⟨hp, hq⟩ := h
        rw [← hp, ← hq, ih p' q' hf]
        rfl

theorem findSep_len (sep : List Char) (hne : ¬ sep = []) (s p q : List Char)
    (h : findSep sep s = some (p, q)) : q.length < s.length := by
  have hs := findSep_sound sep s p q h
  have hpos : 0 < sep.length := List.length_pos.mpr hne
  rw [hs]
  simp [List.length_append]
  omega

theorem splitFuel_congr (sep : List Char) (hne : ¬ sep = []) :
    ∀ (n : Nat) (s : List Char), s.length ≤ n →
      ∀ (f1 f2 : Nat), s.length < f1 → s.length < f2 →
        splitFuel sep f1 s = splitFuel sep f2 s := by
  intro n
  induction n with
  | zero =>
    intro s hs f1 f2 h1 h2
    have hsnil : s = [] := List.eq_nil_of_length_eq_zero (Nat.le_zero.mp hs)
    subst hsnil
    obtain ⟨g1, rfl⟩ : ∃ k, f1 = k + 1 := ⟨f1 - 1, by omega⟩
    obtain ⟨g2, rfl⟩ : ∃ k, f2 = k + 1 := ⟨f2 - 1, by omega⟩
    rfl
  | succ n ih =>
    intro s hs f1 f2 h1 h2
    obtain ⟨g1, rfl⟩ : ∃ k, f1 = k + 1 := ⟨f1 - 1, by omega⟩
    obtain ⟨g2, rfl⟩ : ∃ k, f2 = k + 1 := ⟨f2 - 1, by omega⟩
    cases hf : findSep sep s with
    | none => simp [splitFuel, hf]
    | some pq =>
      obtain ⟨p, q⟩ := pq
      have hlt : q.length < s.length := findSep_len sep hne s p q hf
      simp only [splitFuel, hf]
      congr 1
      exact ih q (by omega) g1 g2 (by omega) (by omega)

theorem pySplit_joinSep (hc : Char) (tl : List Char) :
    ∀ (segs : List (List Char)), ¬ segs = [] →
      (∀ s ∈ segs, ∀ c ∈ s, ¬ c = hc) →
      pySplit (hc :: tl) (joinSep (hc :: tl) segs) = segs := by
  intro segs
  induction segs with
  | nil => intro h _; exact absurd rfl h
  | cons s rest ih =>
    intro _ hfree
    have hs : ∀ c ∈ s, ¬ c = hc := hfree s (List.mem_cons_self _ _)
    cases rest with
    | nil =>
      show pySplit (hc :: tl) s = [s]
      unfold pySplit
      cases hf : s.length + 1 with
      | zero => exact absurd hf (by omega)
      | succ f => simp [splitFuel, findSep_none hc tl s hs]
    | cons s2 rest' =>
      have hrest : ¬ (s2 :: rest') = ([] : List (List Char)) := by simp
      have hfree' : ∀ u ∈ s2 :: rest', ∀ c ∈ u, ¬ c = hc :=
        fun u hu => hfree u (List.mem_cons_of_mem _ hu)
      have hjoin : joinSep (hc :: tl) (s :: s2 :: rest') =
          s ++ (hc :: tl) ++ joinSep (hc :: tl) (s2 :: rest') := rfl
      rw [hjoin]
      unfold pySplit
      have hstep : ∀ f, splitFuel (hc :: tl) (f + 1) (s ++ (hc :: tl) ++ joinSep (hc :: tl) (s2 :: rest')) =
          s :: splitFuel (hc :: tl) f (joinSep (hc :: tl) (s2 :: rest')) := by
        intro f
        simp only [splitFuel]
        rw [findSep_append hc tl s (joinSep (hc :: tl) (s2 :: rest')) hs]
      rw [hstep]
      have hcongr : splitFuel (hc :: tl) ((s ++ (hc :: tl) ++ joinSep (hc :: tl) (s2 :: rest')).length)
            (joinSep (hc :: tl) (s2 :: rest')) =
          splitFuel (hc :: tl) ((joinSep (hc :: tl) (s2 :: rest')).length + 1)
            (joinSep (hc :: tl) (s2 :: rest')) := by
        apply splitFuel_congr (hc :: tl) (by simp) ((joinSep (hc :: tl) (s2 :: rest')).length)
          _ le_rfl
        · simp [List.length_append]
          omega
        · omega
      rw [hcongr]
      rw [show splitFuel (hc :: tl) ((joinSep (hc :: tl) (s2 :: rest')).length + 1)
            (joinSep (hc :: tl) (s2 :: rest')) =
          pySplit (hc :: tl) (joinSep (hc :: tl) (s2 :: rest')) from rfl]
      rw [ih hrest hfree']

/-! Monotonicity of the similarity primitives in their thresholds. -/

theorem seqRatioGe_mono (a b : List Char) (p q : Nat) (hpq : p ≤ q)
    (h : seqRatioGe a b q = true) : seqRatioGe a b p = true := by
  unfold seqRatioGe at h ⊢
  by_cases ht : a.length + b.length = 0
  · rw [if_pos ht] at h ⊢
    exact decide_eq_true (le_trans hpq (of_decide_eq_true h))
  · rw [if_neg ht] at h ⊢
    exact decide_eq_true (le_trans (Nat.mul_le_mul_right _ hpq) (of_decide_eq_true h))

theorem very_close_mono (a b : List Char) (p q : Nat) (hpq : p ≤ q)
    (h : very_close a b q = true) : very_close a b p = true := by
  unfold very_close at h ⊢
  split_ifs at h ⊢
  · exact h
  · exact seqRatioGe_mono a b p q hpq h

theorem is_subset_anti (a b : List Char) (m n : Nat) (hmn : m ≤ n)
    (h : is_subset a b n = true) : is_subset a b m = true := by
  unfold is_subset at h ⊢
  by_cases h1 : (a.isEmpty || b.isEmpty) = true
  · rw [if_pos h1] at h
    exact absurd h (by simp)
  · rw [if_neg h1] at h ⊢
    by_cases h2 : min a.length b.length < n
    · rw [if_pos h2] at h
      exact absurd h (by simp)
    · rw [if_neg h2] at h
      rw [if_neg (by omega : ¬ min a.length b.length < m)]
      exact h

theorem cbm_mono (A B : List (List Char)) (m : Nat) (p q : Nat) (hpq : p ≤ q)
    (h : clause_based_match A B m q = true) : clause_based_match A B m p = true := by
  unfold clause_based_match at h ⊢
  rw [List.any_eq_true] at h ⊢
  obtain ⟨ca, hca, hh⟩ := h
  refine ⟨ca, hca, ?_⟩
  rw [Bool.and_eq_true] at hh ⊢
  obtain ⟨hlen, hinner⟩ := hh
  refine ⟨hlen, ?_⟩
  rw [List.any_eq_true] at hinner ⊢
  obtain ⟨cb, hcb, hh2⟩ := hinner
  refine ⟨cb, hcb, ?_⟩
  rw [Bool.and_eq_true] at hh2 ⊢
  obtain ⟨hlen2, hor⟩ := hh2
  refine ⟨hlen2, ?_⟩
  simp only [Bool.or_eq_true] at hor ⊢
  rcases hor with (hsub | hsub) | hratio
  · exact Or.inl (Or.inl hsub)
  · exact Or.inl (Or.inr hsub)
  · exact Or.inr (seqRatioGe_mono ca cb p q hpq hratio)

theorem ite_chain (x y z : Bool) :
    (if x = true then true else if y = true then true else if z = true then true else false) =
      (x || y || z) := by
  cases x <;> cases y <;> cases z <;> rfl

theorem dupDecision_eq (a b : List Char) (A B : List (List Char)) (ov tc : Bool) (cml : Nat) :
    dupDecision a b A B ov tc cml =
      (clause_based_match A B cml (if tc then 88 else 92)
       || is_subset a b (if ov then 12 else if tc then 10 else 16)
       || very_close a b (if ov then (if tc then 90 else 92) else (if tc then 92 else 95))) := by
  cases ov <;> cases tc <;> simp [dupDecision, ite_chain, Bool.or_assoc]

theorem dupDecision_mono_time (a b : List Char) (A B : List (List Char)) (cml : Nat) (ov : Bool)
    (h : dupDecision a b A B ov false cml = true) : dupDecision a b A B ov true cml = true := by
  rw [dupDecision_eq] at h ⊢
  simp only [Bool.or_eq_true] at h ⊢
  rcases h with (hcm | hsub) | hvc
  · exact Or.inl (Or.inl (cbm_mono A B cml 88 92 (by omega) (by simpa using hcm)))
  · refine Or.inl (Or.inr ?_)
    cases ov
    · exact is_subset_anti a b 10 16 (by omega) (by simpa using hsub)
    · simpa using hsub
  · refine Or.inr ?_
    cases ov
    · exact very_close_mono a b 92 95 (by omega) (by simpa using hvc)
    · exact very_close_mono a b 90 92 (by omega) (by simpa using hvc)

theorem dupDecision_mono_overlap (a b : List Char) (A B : List (List Char)) (cml : Nat)
    (h : dupDecision a b A B false false cml = true) : dupDecision a b A B true false cml = true := by
  rw [dupDecision_eq] at h ⊢
  simp only [Bool.or_eq_true] at h ⊢
  rcases h with (hcm | hsub) | hvc
  · exact Or.inl (Or.inl hcm)
  · exact Or.inl (Or.inr (is_subset_anti a b 12 16 (by omega) (by simpa using hsub)))
  · exact Or.inr (very_close_mono a b 92 95 (by omega) (by simpa using hvc))

/-! Symmetry of the non-ratio signals. -/

theorem ranges_overlap_comm (a b : Option (Int × Int)) (tol : Int) :
    ranges_overlap a b tol = ranges_overlap b a tol := by
  rcases a with _ | ⟨a1, a2⟩ <;> rcases b with _ | ⟨b1, b2⟩ <;>
    simp [ranges_overlap, Bool.or_comm]

theorem timeCloseB_comm (ta tb : Option Int) (tol : Int) :
    timeCloseB ta tb tol = timeCloseB tb ta tol := by
  rcases ta with _ | x
  · rcases tb with _ | y <;> rfl
  · rcases tb with _ | y
    · rfl
    · show decide (((x - y).natAbs : Int) ≤ tol) = decide (((y - x).natAbs : Int) ≤ tol)
      have h : (x - y).natAbs = (y - x).natAbs := by omega
      rw [h]

theorem is_subset_comm (a b : List Char) (n : Nat) : is_subset a b n = is_subset b a n := by
  unfold is_subset
  rw [Bool.or_comm a.isEmpty, Nat.min_comm, Bool.or_comm (isSubstr a b)]

theorem is_duplicate_comm_eq (cur kept : Entry) (tt : Int) (cml : Nat)
    (h : cur.norm = kept.norm ∨ cur.norm = [] ∨ kept.norm = []) :
    is_duplicate cur kept tt cml = is_duplicate kept cur tt cml := by
  rcases h with he | h0 | h0
  · by_cases hemp : kept.norm = []
    · simp [is_duplicate, he, hemp]
    · have hne : kept.norm.isEmpty = false := List.isEmpty_eq_false.mpr hemp
      simp [is_duplicate, he, hne]
  · simp [is_duplicate, h0]
  · simp [is_duplicate, h0]

/-! The sort key, read back as the ordering properties the spec claims. -/

theorem listLt_two_false (u1 u2 w1 w2 : Int)
    (h : listLt [u1, u2] [w1, w2] = false) : w1 ≤ u1 ∧ (w1 = u1 → w2 ≤ u2) := by
  simp only [listLt] at h
  by_cases h1 : u1 < w1
  · rw [if_pos h1] at h
    exact absurd h (by simp)
  · by_cases h2 : w1 < u1
    · exact ⟨by omega, fun he => absurd he (by omega)⟩
    · rw [if_neg h1, if_neg h2] at h
      by_cases h3 : u2 < w2
      · rw [if_pos h3] at h
        exact absurd h (by simp)
      · exact ⟨by omega, fun _ => by omega⟩

theorem listLt_three_false (u1 u2 u3 w1 w2 w3 : Int)
    (h : listLt [u1, u2, u3] [w1, w2, w3] = false) :
    w1 ≤ u1 ∧ (w1 = u1 → w2 ≤ u2 ∧ (w2 = u2 → w3 ≤ u3)) := by
  simp only [listLt] at h
  by_cases h1 : u1 < w1
  · rw [if_pos h1] at h
    exact absurd h (by simp)
  · by_cases h2 : w1 < u1
    · exact ⟨by omega, fun he => absurd he (by omega)⟩
    · rw [if_neg h1, if_neg h2] at h
      by_cases h3 : u2 < w2
      · rw [if_pos h3] at h
        exact absurd h (by simp)
      · by_cases h4 : w2 < u2
        · exact ⟨by omega, fun _ => ⟨by omega, fun he => absurd he (by omega)⟩⟩
        · rw [if_neg h3, if_neg h4] at h
          by_cases h5 : u3 < w3
          · rw [if_pos h5] at h
            exact absurd h (by simp)
          · exact ⟨by omega, fun _ => ⟨by omega, fun _ => by omega⟩⟩

theorem claimRel_of_key (x y : Entry) (hx : locSmall x = true) (hy : locSmall y = true)
    (hR : listLt (sort_key y) (sort_key x) = false) : claimRel x y := by
  unfold locSmall at hx hy
  unfold claimRel
  rcases hlx : x.loc with _ | ⟨sx, ex⟩ <;> rcases hly : y.loc with _ | ⟨sy, ey⟩
  · -- both unlocated
    have kx : sort_key x = [1000000000000, -(x.timestamp.getD 0), x.idx] := by
      unfold sort_key; rw [hlx]
    have ky : sort_key y = [1000000000000, -(y.timestamp.getD 0), y.idx] := by
      unfold sort_key; rw [hly]
    rw [kx, ky] at hR
    have h3 := listLt_three_false _ _ _ _ _ _ hR
    obtain ⟨-, h32⟩ := h3
    obtain ⟨ha, hb⟩ := h32 rfl
    refine ⟨by omega, fun he => hb (by omega)⟩
  · -- x unlocated, y located: impossible in sorted order
    rw [hly] at hy
    have hsy : sy < 1000000000000 := of_decide_eq_true hy
    have kx : sort_key x = [1000000000000, -(x.timestamp.getD 0), x.idx] := by
      unfold sort_key; rw [hlx]
    have ky : sort_key y = [sy, y.idx] := by
      unfold sort_key; rw [hly]
    rw [kx, ky] at hR
    have hlt : listLt [sy, y.idx] [1000000000000, -(x.timestamp.getD 0), x.idx] = true := by
      simp [listLt, hsy]
    rw [hlt] at hR
    exact absurd hR (by simp)
  · -- x located, y unlocated
    trivial
  · -- both located
    have kx : sort_key x = [sx, x.idx] := by unfold sort_key; rw [hlx]
    have ky : sort_key y = [sy, y.idx] := by unfold sort_key; rw [hly]
    rw [kx, ky] at hR
    have h2 := listLt_two_false _ _ _ _ hR
    exact ⟨h2.1, h2.2⟩

theorem getBook_dedup (es : List Entry) (tt : Int) (cml : Nat) (b : String) :
    getBook (dedup_by_book es tt cml) b =
      processBook tt cml (es.filter (fun e => decide (e.title = b))) := by
  unfold getBook dedup_by_book groupByTitle
  rw [lookupBook_map, lookup_groupFold]
  simp only [lookupBook]
  by_cases h : (es.filter (fun e => decide (e.title = b))).isEmpty = true
  · rw [if_pos h]
    rw [List.isEmpty_iff.mp h]
    rfl
  · rw [if_neg h]
    rfl

theorem mem_processBook (tt : Int) (cml : Nat) (l : List Entry) (x : Entry)
    (h : x ∈ processBook tt cml l) : x ∈ l := by
  unfold processBook at h
  simp only [List.mem_append] at h
  have h' : x ∈ (l.reverse.foldl (stepKeep tt cml) ([], [], [])).1 ∨
      x ∈ (l.reverse.foldl (stepKeep tt cml) ([], [], [])).2.1 ∨
      x ∈ (l.reverse.foldl (stepKeep tt cml) ([], [], [])).2.2 := by
    rcases h with (h | h) | h
    · exact Or.inl (mem_sortK.mp h)
    · exact Or.inr (Or.inl (mem_sortK.mp h))
    · exact Or.inr (Or.inr (mem_sortK.mp h))
  rcases fold_mem tt cml l.reverse ([], [], []) x h' with h0 | h0
  · simp at h0
  · exact List.mem_reverse.mp h0

/-! The claims. -/

/-- Claim C1 (corrected).  The classifier factors through `dupDecision` on the
two corroborating signals, and the decision is monotone when timestamp
proximity is enabled (for either overlap value) and when location overlap is
enabled without timestamp proximity; the remaining direction — enabling
overlap under timestamp proximity — is NOT monotone (see the
counterexample): the subset floor tightens from 10 to 12. -/
theorem c1_amended :
    (∀ (cur kept : Entry) (tt : Int) (cml : Nat), ¬ cur.norm = [] → ¬ kept.norm = [] →
       ¬ cur.norm = kept.norm →
       is_duplicate cur kept tt cml =
         dupDecision cur.norm kept.norm cur.clauses kept.clauses
           (ranges_overlap cur.loc kept.loc 8) (timeCloseB cur.timestamp kept.timestamp tt) cml)
    ∧ (∀ (a b : List Char) (A B : List (List Char)) (cml : Nat) (ov : Bool),
        dupDecision a b A B ov false cml = true → dupDecision a b A B ov true cml = true)
    ∧ (∀ (a b : List Char) (A B : List (List Char)) (cml : Nat),
        dupDecision a b A B false false cml = true → dupDecision a b A B true false cml = true) := by
  refine ⟨?_, dupDecision_mono_time, dupDecision_mono_overlap⟩
  intro cur kept tt cml h1 h2 h3
  have ha : cur.norm.isEmpty = false := List.isEmpty_eq_false.mpr h1
  have hb : kept.norm.isEmpty = false := List.isEmpty_eq_false.mpr h2
  have hne : (cur.norm == kept.norm) = false := beq_eq_false_iff_ne.mpr h3
  simp [is_duplicate, ha, hb, hne]

/-- Claim C1 witness: the time-proximity monotonicity applied at a pair
matching via the subset test with floor 16. -/
theorem c1_witness : dupDecision txtA16 txtB17 [] [] false true 12 = true :=
  c1_amended.2.1 txtA16 txtB17 [] [] 12 false (by decide)

/-- Claim C1 counterexample: with close timestamps, the pair is a duplicate
while the locations are far apart (via the subset floor 10), but becomes a
non-duplicate once the locations overlap (floor 12, ratio below 0.90) —
enabling location overlap flipped a duplicate into a non-duplicate with all
text inputs unchanged. -/
theorem c1_cex :
    ranges_overlap entC1FarCur.loc entC1FarKept.loc 8 = false ∧
    ranges_overlap entC1NearCur.loc entC1NearKept.loc 8 = true ∧
    timeCloseB entC1FarCur.timestamp entC1FarKept.timestamp 300 = true ∧
    timeCloseB entC1NearCur.timestamp entC1NearKept.timestamp 300 = true ∧
    entC1NearCur.norm = entC1FarCur.norm ∧ entC1NearKept.norm = entC1FarKept.norm ∧
    entC1NearCur.clauses = entC1FarCur.clauses ∧ entC1NearKept.clauses = entC1FarKept.clauses ∧
    is_duplicate entC1FarCur entC1FarKept 300 12 = true ∧
    is_duplicate entC1NearCur entC1NearKept 300 12 = false := by
  decide

/-- Claim C2 (corrected).  With differing non-empty normalized bodies and
overlapping locations, the classifier returns clause-overlap OR subset with
floor 12 OR near-equality — but the near-equality threshold is 0.90 only
when the timestamps are close, and 0.92 otherwise (not 0.90 regardless, as
the claim states; see the counterexample). -/
theorem c2_amended (cur kept : Entry) (tt : Int) (cml : Nat)
    (h1 : ¬ cur.norm = []) (h2 : ¬ kept.norm = []) (h3 : ¬ cur.norm = kept.norm)
    (hov : ranges_overlap cur.loc kept.loc 8 = true) :
    is_duplicate cur kept tt cml =
      (clause_based_match cur.clauses kept.clauses cml
         (if timeCloseB cur.timestamp kept.timestamp tt then 88 else 92)
       || is_subset cur.norm kept.norm 12
       || very_close cur.norm kept.norm
            (if timeCloseB cur.timestamp kept.timestamp tt then 90 else 92)) := by
  have ha : cur.norm.isEmpty = false := List.isEmpty_eq_false.mpr h1
  have hb : kept.norm.isEmpty = false := List.isEmpty_eq_false.mpr h2
  have hne : (cur.norm == kept.norm) = false := beq_eq_false_iff_ne.mpr h3
  simp only [is_duplicate, ha, hb, hne]
  rw [dupDecision_eq, hov]
  simp

/-- Claim C2 witness: the amended equation evaluated at the concrete
overlapping pair with far timestamps. -/
theorem c2_witness :
    is_duplicate entC2Cur entC2Kept 300 12 =
      (clause_based_match entC2Cur.clauses entC2Kept.clauses 12
         (if timeCloseB entC2Cur.timestamp entC2Kept.timestamp 300 then 88 else 92)
       || is_subset entC2Cur.norm entC2Kept.norm 12
       || very_close entC2Cur.norm entC2Kept.norm
            (if timeCloseB entC2Cur.timestamp entC2Kept.timestamp 300 then 90 else 92)) :=
  c2_amended entC2Cur entC2Kept 300 12 (by decide) (by decide) (by decide) (by decide)

/-- Claim C2 counterexample: overlapping locations, timestamps absent, and a
sequence-matcher ratio of exactly 0.90: the claim's right-hand side (0.90
regardless) declares a duplicate, but `is_duplicate` does not (it applies
0.92 when the timestamps are not close). -/
theorem c2_cex :
    ranges_overlap entC2Cur.loc entC2Kept.loc 8 = true ∧
    ¬ entC2Cur.norm = entC2Kept.norm ∧ ¬ entC2Cur.norm = [] ∧ ¬ entC2Kept.norm = [] ∧
    is_duplicate entC2Cur entC2Kept 300 12 = false ∧
    dupOverlapSpecC2 entC2Cur entC2Kept 300 12 = true := by
  decide

/-- Claim C3 (corrected).  `ranges_overlap` is true iff both ranges are
present and they intersect after each range is expanded by the tolerance 8
at its upper end only (equivalently: the gap between the ranges is at most
8), and it is false whenever either location is missing.  The claim's
both-ends expansion (gap up to 16) does not hold; see the counterexample. -/
theorem c3_amended :
    (∀ a1 a2 b1 b2 : Int, a1 ≤ a2 → b1 ≤ b2 →
      (ranges_overlap (some (a1, a2)) (some (b1, b2)) 8 = true ↔
        ∃ p : Int, (a1 ≤ p ∧ p ≤ a2 + 8) ∧ (b1 ≤ p ∧ p ≤ b2 + 8)))
    ∧ (∀ o : Option (Int × Int), ranges_overlap none o 8 = false ∧ ranges_overlap o none 8 = false) := by
  constructor
  · intro a1 a2 b1 b2 ha hb
    have hro : ranges_overlap (some (a1, a2)) (some (b1, b2)) 8 =
        !(decide (a2 + 8 < b1) || decide (b2 + 8 < a1)) := rfl
    rw [hro]
    constructor
    · intro h
      have h' : (decide (a2 + 8 < b1) || decide (b2 + 8 < a1)) = false := by
        cases hval : (decide (a2 + 8 < b1) || decide (b2 + 8 < a1))
        · rfl
        · rw [hval] at h
          exact absurd h (by decide)
      rw [Bool.or_eq_false_iff] at h'
      have hx : ¬ (a2 + 8 < b1) := of_decide_eq_false h'.1
      have hy : ¬ (b2 + 8 < a1) := of_decide_eq_false h'.2
      rcases le_total a1 b1 with hc | hc
      · exact ⟨b1, ⟨hc, by omega⟩, ⟨le_refl b1, by omega⟩⟩
      · exact ⟨a1, ⟨le_refl a1, by omega⟩, ⟨hc, by omega⟩⟩
    · rintro ⟨p, ⟨hpa1, hpa2⟩, ⟨hpb1, hpb2⟩⟩
      have hx : decide (a2 + 8 < b1) = false := decide_eq_false (by omega)
      have hy : decide (b2 + 8 < a1) = false := decide_eq_false (by omega)
      rw [hx, hy]
      rfl
  · intro o
    rcases o with _ | ⟨p, q⟩ <;> exact ⟨rfl, rfl⟩

/-- Claim C3 witness: the characterisation applied to the ranges (0,0) and
(4,4), whose gap of 4 is within the tolerance. -/
theorem c3_witness :
    ranges_overlap (some ((0 : Int), (0 : Int))) (some ((4 : Int), (4 : Int))) 8 = true ↔
      ∃ p : Int, ((0 : Int) ≤ p ∧ p ≤ 0 + 8) ∧ ((4 : Int) ≤ p ∧ p ≤ 4 + 8) :=
  c3_amended.1 0 0 4 4 (by decide) (by decide)

/-- Claim C3 counterexample: the ranges (0,0) and (16,16) have gap 16; the
claim's both-ends expansion declares them overlapping, but `ranges_overlap`
returns false. -/
theorem c3_cex :
    ranges_overlap (some ((0 : Int), (0 : Int))) (some ((16 : Int), (16 : Int))) 8 = false ∧
    rangesOverlapSpecBothEnds (some ((0 : Int), (0 : Int))) (some ((16 : Int), (16 : Int))) = true := by
  decide

/-- Claim C4 (corrected).  The record separator is ten EQUALS signs
`"=========="`, not ten hyphens: for any nonempty list of segments free of
the `'='` character, splitting their marker-joined concatenation recovers
exactly the trimmed non-empty segments. -/
theorem c4_amended (segs : List (List Char)) (h1 : ¬ segs = [])
    (h2 : ∀ s ∈ segs, ∀ c ∈ s, ¬ c = '=') :
    split_entries (joinSep eqMarker segs) =
      ((segs.map pyStrip).filter (fun p => !p.isEmpty)) := by
  unfold split_entries
  have hm : eqMarker = '=' :: "=========".toList := by decide
  rw [hm, pySplit_joinSep '=' ("=========".toList) segs h1 h2]

/-- Claim C4 witness: splitting `"a" ++ marker ++ "b"` yields the two
segments. -/
theorem c4_witness :
    split_entries (joinSep eqMarker [['a'], ['b']]) =
      (([['a'], ['b']].map pyStrip).filter (fun p => !p.isEmpty)) :=
  c4_amended [['a'], ['b']] (by decide) (by decide)

/-- Claim C4 counterexample: on content containing both a ten-hyphen line and
a ten-equals line, `split_entries` splits at the equals marker, while the
claim's ten-hyphen convention would split at the hyphen line. -/
theorem c4_cex :
    split_entries contentC4 = ["a\n----------\nb".toList, "c".toList] ∧
    splitEntriesSpecHyphen contentC4 = ["a".toList, "b\n==========\nc".toList] := by
  decide

/-- Claim C5 (corrected).  Deduplication partitions entries into
(title, bucket) groups where notes and bookmarks have their own buckets but
highlights and `unknown` entries SHARE the `kept_h` bucket: the whole
computation factors into three independent folds over the type-filtered
sublists of each title group.  In particular an unknown entry is classified
against kept highlights (see the counterexample), contrary to the claim. -/
theorem c5_amended (es : List Entry) (tt : Int) (cml : Nat) :
    dedup_by_book es tt cml =
      (groupByTitle es).map (fun p =>
        (p.1, sortK (keepHU tt cml (p.2.reverse.filter isHU)) ++
              sortK (keepN (p.2.reverse.filter (fun e => decide (e.type = "note")))) ++
              sortK (keepB (p.2.reverse.filter (fun e => decide (e.type = "bookmark")))))) := by
  unfold dedup_by_book
  apply List.map_congr_left
  intro p _
  show (p.1, processBook tt cml p.2) =
    (p.1, sortK (keepHU tt cml (p.2.reverse.filter isHU)) ++
          sortK (keepN (p.2.reverse.filter (fun e => decide (e.type = "note")))) ++
          sortK (keepB (p.2.reverse.filter (fun e => decide (e.type = "bookmark")))))
  have hd : processBook tt cml p.2 =
      sortK ((p.2.reverse.filter isHU).foldl (stepHU tt cml) []) ++
      sortK ((p.2.reverse.filter (fun e => decide (e.type = "note"))).foldl stepN []) ++
      sortK ((p.2.reverse.filter (fun e => decide (e.type = "bookmark"))).foldl stepB []) := by
    show sortK (p.2.reverse.foldl (stepKeep tt cml) ([], [], [])).1 ++
         sortK (p.2.reverse.foldl (stepKeep tt cml) ([], [], [])).2.1 ++
         sortK (p.2.reverse.foldl (stepKeep tt cml) ([], [], [])).2.2 = _
    rw [fold_factor tt cml p.2.reverse [] [] []]
  rw [hd]
  rfl

/-- Claim C5 counterexample: an `unknown` entry with the same text as an
earlier highlight of the same document suppresses that highlight — the two
kinds share a bucket, so only the unknown entry survives. -/
theorem c5_cex :
    entC5High.type = "highlight" ∧ entC5Unk.type = "unknown" ∧
    entC5High.norm = entC5Unk.norm ∧ entC5High.title = entC5Unk.title ∧
    dedup_by_book [entC5High, entC5Unk] 300 12 = [("B", [entC5Unk])] := by
  decide

/-- Claim C6 (corrected).  For a kind other than bookmark and a NON-EMPTY
normalized body value, at most one entry of that kind with that normalized
body survives per document — regardless of locations and timestamps.  The
claim fails without the non-emptiness proviso: entries whose raw body is
non-empty but whose normalized body is empty are never classified as
duplicates (see the counterexample); bookmarks are deduplicated by metadata
instead. -/
theorem c6_amended (es : List Entry) (tt : Int) (cml : Nat) (book t : String) (v : List Char)
    (ht : ¬ t = "bookmark") (hv : ¬ v = []) :
    (getBook (dedup_by_book es tt cml) book).countP
      (fun e => decide (e.type = t) && decide (e.norm = v)) ≤ 1 := by
  rw [getBook_dedup]
  have hd : processBook tt cml (es.filter (fun e => decide (e.title = book))) =
      sortK ((es.filter (fun e => decide (e.title = book))).reverse.foldl (stepKeep tt cml) ([], [], [])).1 ++
      sortK ((es.filter (fun e => decide (e.title = book))).reverse.foldl (stepKeep tt cml) ([], [], [])).2.1 ++
      sortK ((es.filter (fun e => decide (e.title = book))).reverse.foldl (stepKeep tt cml) ([], [], [])).2.2 := rfl
  rw [hd, List.countP_append, List.countP_append]
  rw [List.Perm.countP_eq _ (sortK_perm _), List.Perm.countP_eq _ (sortK_perm _),
      List.Perm.countP_eq _ (sortK_perm _)]
  have htypes := fold_types tt cml (es.filter (fun e => decide (e.title = book))).reverse
    ([], [], []) (by simp) (by simp) (by simp)
  have hz3 : ((es.filter (fun e => decide (e.title = book))).reverse.foldl (stepKeep tt cml) ([], [], [])).2.2.countP
      (fun e => decide (e.type = t) && decide (e.norm = v)) = 0 := by
    rw [List.countP_eq_zero]
    intro e he hp
    rw [Bool.and_eq_true] at hp
    have hty : e.type = t := of_decide_eq_true hp.1
    have hbk : e.type = "bookmark" := htypes.2.2 e he
    exact ht (hty.symm.trans hbk)
  by_cases htn : t = "note"
  · have hz1 : ((es.filter (fun e => decide (e.title = book))).reverse.foldl (stepKeep tt cml) ([], [], [])).1.countP
        (fun e => decide (e.type = t) && decide (e.norm = v)) = 0 := by
      rw [List.countP_eq_zero]
      intro e he hp
      rw [Bool.and_eq_true] at hp
      have hty : e.type = t := of_decide_eq_true hp.1
      have hhu : isHU e = true := htypes.1 e he
      unfold isHU at hhu
      rw [Bool.and_eq_true] at hhu
      have hn1 : ¬ e.type = "note" := by
        have hx := hhu.1
        cases hdec : decide (e.type = "note")
        · exact of_decide_eq_false hdec
        · rw [hdec] at hx
          exact absurd hx (by decide)
      exact hn1 (hty.trans htn)
    have h2a : ((es.filter (fun e => decide (e.title = book))).reverse.foldl (stepKeep tt cml) ([], [], [])).2.1.countP
        (fun e => decide (e.type = t) && decide (e.norm = v)) ≤
        ((es.filter (fun e => decide (e.title = book))).reverse.foldl (stepKeep tt cml) ([], [], [])).2.1.countP
        (fun e => decide (e.norm = v)) :=
      List.countP_mono_left (fun e _ hp => by rw [Bool.and_eq_true] at hp; exact hp.2)
    have h2b : ((es.filter (fun e => decide (e.title = book))).reverse.foldl (stepKeep tt cml) ([], [], [])).2.1.countP
        (fun e => decide (e.norm = v)) ≤ 1 :=
      fold_count_n tt cml _ ([], [], []) v (by simp)
    omega
  · have hz2 : ((es.filter (fun e => decide (e.title = book))).reverse.foldl (stepKeep tt cml) ([], [], [])).2.1.countP
        (fun e => decide (e.type = t) && decide (e.norm = v)) = 0 := by
      rw [List.countP_eq_zero]
      intro e he hp
      rw [Bool.and_eq_true] at hp
      have hty : e.type = t := of_decide_eq_true hp.1
      have hnn : e.type = "note" := htypes.2.1 e he
      exact htn (hty.symm.trans hnn)
    have h1a : ((es.filter (fun e => decide (e.title = book))).reverse.foldl (stepKeep tt cml) ([], [], [])).1.countP
        (fun e => decide (e.type = t) && decide (e.norm = v)) ≤
        ((es.filter (fun e => decide (e.title = book))).reverse.foldl (stepKeep tt cml) ([], [], [])).1.countP
        (fun e => decide (e.norm = v)) :=
      List.countP_mono_left (fun e _ hp => by rw [Bool.and_eq_true] at hp; exact hp.2)
    have h1b : ((es.filter (fun e => decide (e.title = book))).reverse.foldl (stepKeep tt cml) ([], [], [])).1.countP
        (fun e => decide (e.norm = v)) ≤ 1 :=
      fold_count_h tt cml _ ([], [], []) v hv (by simp)
    omega

/-- Claim C6 witness: two highlights with the same non-empty normalized body
collapse, so the count is at most one. -/
theorem c6_witness :
    (getBook (dedup_by_book [entWitEq0, entWitEq1] 300 12) "B").countP
      (fun e => decide (e.type = "highlight") && decide (e.norm = "goodmorningworld".toList)) ≤ 1 :=
  c6_amended [entWitEq0, entWitEq1] 300 12 "B" "highlight" ("goodmorningworld".toList)
    (by decide) (by decide)

/-- Claim C6 counterexample: two highlights of the same document whose raw
bodies are `"!!!"` have identical (empty) normalized bodies, yet BOTH
survive deduplication — the exact-duplicate collapse fails for empty
normalized bodies. -/
theorem c6_cex :
    entC6Bang0.type = entC6Bang1.type ∧ entC6Bang0.norm = entC6Bang1.norm ∧
    entC6Bang0.title = entC6Bang1.title ∧ ¬ entC6Bang0 = entC6Bang1 ∧
    dedup_by_book [entC6Bang0, entC6Bang1] 300 12 = [("B", [entC6Bang0, entC6Bang1])] := by
  decide

/-- Claim C7 (corrected).  The location-overlap, timestamp-proximity and
subset signals are commutative, and `is_duplicate` is commutative whenever
the normalized bodies are equal or either is empty; but it is NOT
commutative in general, because the sequence-matcher ratio is
order-dependent (see the counterexample). -/
theorem c7_amended :
    (∀ (a b : Option (Int × Int)) (tol : Int), ranges_overlap a b tol = ranges_overlap b a tol)
    ∧ (∀ (ta tb : Option Int) (tol : Int), timeCloseB ta tb tol = timeCloseB tb ta tol)
    ∧ (∀ (a b : List Char) (n : Nat), is_subset a b n = is_subset b a n)
    ∧ (∀ (cur kept : Entry) (tt : Int) (cml : Nat),
        cur.norm = kept.norm ∨ cur.norm = [] ∨ kept.norm = [] →
        is_duplicate cur kept tt cml = is_duplicate kept cur tt cml) :=
  ⟨ranges_overlap_comm, timeCloseB_comm, is_subset_comm, is_duplicate_comm_eq⟩

/-- Claim C7 witness: commutativity at a pair with equal normalized bodies. -/
theorem c7_witness :
    is_duplicate entWitEq0 entWitEq1 300 12 = is_duplicate entWitEq1 entWitEq0 300 12 :=
  c7_amended.2.2.2 entWitEq0 entWitEq1 300 12 (Or.inl rfl)

/-- Claim C7 counterexample: with close timestamps and non-overlapping
locations, the pair of texts `txtAsymA`/`txtAsymB` has sequence-matcher
ratio 38/43 (≥ 0.88) in one order and 34/43 (< 0.88) in the other, so
`is_duplicate` answers true in one direction and false in the other. -/
theorem c7_cex :
    is_duplicate entAsymLate entAsymEarly 300 12 = true ∧
    is_duplicate entAsymEarly entAsymLate 300 12 = false := by
  decide

/-- Claim C8 (corrected).  Re-running `dedup_by_book` on a document's kept
sequence keeps only entries of the first run's output (the second output is
contained in the first), but it need NOT be the same kept set: because the
classifier is not commutative, a second pass can drop further entries (see
the counterexample). -/
theorem c8_amended (es : List Entry) (tt : Int) (cml : Nat) (book : String) (x : Entry)
    (h : x ∈ getBook (dedup_by_book (getBook (dedup_by_book es tt cml) book) tt cml) book) :
    x ∈ getBook (dedup_by_book es tt cml) book := by
  rw [getBook_dedup] at h
  have h1 := mem_processBook tt cml _ x h
  exact (List.mem_filter.mp h1).1

/-- Claim C8 witness: containment applied to a two-entry document whose
second run keeps the single surviving entry. -/
theorem c8_witness :
    entWitEq1 ∈ getBook (dedup_by_book [entWitEq0, entWitEq1] 300 12) "B" :=
  c8_amended [entWitEq0, entWitEq1] 300 12 "B" entWitEq1 (by decide)

/-- Claim C8 counterexample: the first run keeps both asymmetric-ratio
entries (the classifier was only consulted in the direction that answers
false); feeding the kept sequence back reverses the processing order, the
classifier is consulted in the other direction, and one entry is dropped —
deduplication is not idempotent. -/
theorem c8_cex :
    getBook (dedup_by_book [entAsymEarly, entAsymLate] 300 12) "B" = [entAsymLate, entAsymEarly] ∧
    getBook (dedup_by_book (getBook (dedup_by_book [entAsymEarly, entAsymLate] 300 12) "B") 300 12) "B" =
      [entAsymEarly] := by
  decide

/-- Claim C9 (corrected).  Provided every location start is below the
source's unlocated sentinel `10^12`, each document's output is the sorted
highlights-and-unknowns, then sorted notes, then sorted bookmarks, and each
segment is pairwise ordered as the claim states: located entries in
non-decreasing (start, sequence index) order, located before unlocated, and
unlocated entries newest-timestamp-first with index tie-break.  Without the
sentinel bound the located-before-unlocated part fails (see the
counterexample). -/
theorem c9_amended (es : List Entry) (tt : Int) (cml : Nat) (book : String)
    (hloc : ∀ e ∈ es, locSmall e = true) :
    ∃ hs ns bs : List Entry,
      getBook (dedup_by_book es tt cml) book = hs ++ ns ++ bs ∧
      (∀ e ∈ hs, isHU e = true) ∧ (∀ e ∈ ns, e.type = "note") ∧
      (∀ e ∈ bs, e.type = "bookmark") ∧
      hs.Pairwise claimRel ∧ ns.Pairwise claimRel ∧ bs.Pairwise claimRel := by
  rw [getBook_dedup]
  have htypes := fold_types tt cml (es.filter (fun e => decide (e.title = book))).reverse
    ([], [], []) (by simp) (by simp) (by simp)
  have hmem : ∀ e : Entry,
      (e ∈ ((es.filter (fun e => decide (e.title = book))).reverse.foldl (stepKeep tt cml) ([], [], [])).1 ∨
       e ∈ ((es.filter (fun e => decide (e.title = book))).reverse.foldl (stepKeep tt cml) ([], [], [])).2.1 ∨
       e ∈ ((es.filter (fun e => decide (e.title = book))).reverse.foldl (stepKeep tt cml) ([], [], [])).2.2) →
      e ∈ es := by
    intro e he
    rcases fold_mem tt cml _ ([], [], []) e he with h0 | h0
    · simp at h0
    · exact (List.mem_filter.mp (List.mem_reverse.mp h0)).1
  refine ⟨sortK ((es.filter (fun e => decide (e.title = book))).reverse.foldl (stepKeep tt cml) ([], [], [])).1,
          sortK ((es.filter (fun e => decide (e.title = book))).reverse.foldl (stepKeep tt cml) ([], [], [])).2.1,
          sortK ((es.filter (fun e => decide (e.title = book))).reverse.foldl (stepKeep tt cml) ([], [], [])).2.2,
          ?_, ?_, ?_, ?_, ?_, ?_, ?_⟩
  · rfl
  · exact fun e he => htypes.1 e (mem_sortK.mp he)
  · exact fun e he => htypes.2.1 e (mem_sortK.mp he)
  · exact fun e he => htypes.2.2 e (mem_sortK.mp he)
  · refine List.Pairwise.imp_of_mem ?_ (pairwise_sortK _)
    intro a b ha hb hRk
    exact claimRel_of_key a b (hloc a (hmem a (Or.inl (mem_sortK.mp ha))))
      (hloc b (hmem b (Or.inl (mem_sortK.mp hb)))) hRk
  · refine List.Pairwise.imp_of_mem ?_ (pairwise_sortK _)
    intro a b ha hb hRk
    exact claimRel_of_key a b (hloc a (hmem a (Or.inr (Or.inl (mem_sortK.mp ha)))))
      (hloc b (hmem b (Or.inr (Or.inl (mem_sortK.mp hb))))) hRk
  · refine List.Pairwise.imp_of_mem ?_ (pairwise_sortK _)
    intro a b ha hb hRk
    exact claimRel_of_key a b (hloc a (hmem a (Or.inr (Or.inr (mem_sortK.mp ha)))))
      (hloc b (hmem b (Or.inr (Or.inr (mem_sortK.mp hb))))) hRk

/-- Claim C9 witness: the ordering guarantee applied to a concrete two-entry
document whose location starts are below the sentinel. -/
theorem c9_witness :
    ∃ hs ns bs : List Entry,
      getBook (dedup_by_book [entWitEq0, entWitEq1] 300 12) "B" = hs ++ ns ++ bs ∧
      (∀ e ∈ hs, isHU e = true) ∧ (∀ e ∈ ns, e.type = "note") ∧
      (∀ e ∈ bs, e.type = "bookmark") ∧
      hs.Pairwise claimRel ∧ ns.Pairwise claimRel ∧ bs.Pairwise claimRel :=
  c9_amended [entWitEq0, entWitEq1] 300 12 "B" (by decide)

/-- Claim C9 counterexample: an entry whose location start equals the
sentinel `10^12` sorts AFTER an unlocated timestamped entry, violating
"every entry with a location start sorts before every entry without one". -/
theorem c9_cex :
    entC9Loc.loc = some (1000000000000, 1000000000000) ∧ entC9NoLoc.loc = none ∧
    getBook (dedup_by_book [entC9Loc, entC9NoLoc] 300 12) "B" = [entC9NoLoc, entC9Loc] := by
  decide

/-- Claim C10 (confirmed).  A document all of whose entries have empty or
whitespace-only bodies still appears as a key of the output mapping, bound
to the empty sequence. -/
theorem c10_confirmed (es : List Entry) (tt : Int) (cml : Nat) (book : String)
    (hex : ∃ e ∈ es, e.title = book)
    (hbl : ∀ e ∈ es, e.title = book → (e.body.isEmpty || (pyStrip e.body).isEmpty) = true) :
    lookupBook (dedup_by_book es tt cml) book = some [] := by
  unfold dedup_by_book groupByTitle
  rw [lookupBook_map, lookup_groupFold]
  simp only [lookupBook]
  have hne : ¬ (es.filter (fun e => decide (e.title = book))).isEmpty = true := by
    obtain ⟨e, he, het⟩ := hex
    have hmem : e ∈ es.filter (fun e => decide (e.title = book)) :=
      List.mem_filter.mpr ⟨he, decide_eq_true het⟩
    intro hcontra
    rw [List.isEmpty_iff.mp hcontra] at hmem
    exact absurd hmem (List.not_mem_nil e)
  rw [if_neg hne]
  have hall : ∀ e ∈ (es.filter (fun e => decide (e.title = book))).reverse,
      (e.body.isEmpty || (pyStrip e.body).isEmpty) = true := by
    intro e he
    have h1 := List.mem_filter.mp (List.mem_reverse.mp he)
    exact hbl e h1.1 (of_decide_eq_true h1.2)
  have hfold := fold_blank tt cml _ ([], [], []) hall
  have hzero : processBook tt cml (es.filter (fun e => decide (e.title = book))) = [] := by
    show sortK ((es.filter (fun e => decide (e.title = book))).reverse.foldl (stepKeep tt cml) ([], [], [])).1 ++
         sortK ((es.filter (fun e => decide (e.title = book))).reverse.foldl (stepKeep tt cml) ([], [], [])).2.1 ++
         sortK ((es.filter (fun e => decide (e.title = book))).reverse.foldl (stepKeep tt cml) ([], [], [])).2.2 = []
    rw [hfold]
    rfl
  simp only [Option.map_some']
  rw [hzero]

/-- Claim C10 witness: a document with a single whitespace-only bookmark is
present in the output, mapped to the empty sequence. -/
theorem c10_witness :
    lookupBook (dedup_by_book [entC10Blank] 300 12) "B" = some [] :=
  c10_confirmed [entC10Blank] 300 12 "B" (by decide) (by decide)

end KCC
